import Mathlib

/-!
Verification of the chat-prompt assembly engine in modules/chat.py.

Strings are modelled as lists of characters (`Str`).  Python's string
primitives (`split`, `strip`, `rstrip`, `replace`, slicing) are embedded as
fuel-based structural recursions so that every definition evaluates by kernel
reduction; the fuel is always the length of the string, which is an upper
bound on the number of loop iterations since each step consumes at least one
character.  Jinja renderers and the extension hooks are external
collaborators and appear as function parameters.  Python exceptions
(IndexError from a missing sentinel, indexing `messages[-1]` of an empty
list) are modelled with `Except Unit`.
-/

namespace Chat

abbrev Str := List Char

inductive Role where
  | system
  | user
  | assistant
deriving DecidableEq

structure Message where
  role : Role
  content : Str
deriving DecidableEq

inductive Mode where
  | chat
  | instruct
  | chat_instruct
deriving DecidableEq

/-- The fields of the `state` dict that the prompt builder reads. -/
structure State where
  mode : Mode
  name1 : Str
  name2 : Str
  context : Str
  custom_system_message : Str
  chat_instruct_command : Str
deriving DecidableEq

/-- Python `s.strip()` (whitespace from both ends). -/
def pyStrip (s : Str) : Str :=
  ((s.dropWhile Char.isWhitespace).reverse.dropWhile Char.isWhitespace).reverse

/-- Python `s.rstrip(' ')` (only spaces, only on the right). -/
def rstripSpaces (s : Str) : Str :=
  (s.reverse.dropWhile (fun c => c == ' ')).reverse

/-- Python `s[:-n]` for a nonnegative `n`: for `n = 0` the slice is `s[:0] = ""`,
otherwise the last `n` characters are removed. -/
def pyDropTail (s : Str) (n : Nat) : Str :=
  if n = 0 then [] else s.take (s.length - n)

/-- Python `list.insert(n, x)` (`n` past the end appends, as in Python). -/
def pyInsert {α : Type} (n : Nat) (x : α) : List α → List α
  | [] => [x]
  | y :: ys =>
    match n with
    | 0 => x :: y :: ys
    | Nat.succ m => y :: pyInsert m x ys

/-- Worker for Python `s.split(sep)`: leftmost, non-overlapping occurrences.
The fuel bounds the recursion; each step consumes at least one character. -/
def splitGo (sep : Str) : Nat → Str → List Str
  | 0, s => [s]
  | Nat.succ n, s =>
    match s with
    | [] => [[]]
    | c :: cs =>
      if sep.isPrefixOf (c :: cs) then
        [] :: splitGo sep n ((c :: cs).drop sep.length)
      else
        match splitGo sep n cs with
        | [] => [[c]]
        | part :: parts => (c :: part) :: parts

/-- Python `s.split(sep)` for a non-empty separator (the separators used by
the source are all non-empty literals; Python raises on an empty one). -/
def pySplit (sep s : Str) : List Str :=
  if sep.isEmpty then [s] else splitGo sep s.length s

/-- Worker for the `while prompt.startswith(tok): prompt = prompt[len(tok):]`
loops of `remove_extra_bos`. -/
def stripGo (tok : Str) : Nat → Str → Str
  | 0, s => s
  | Nat.succ n, s =>
    if tok.isPrefixOf s then stripGo tok n (s.drop tok.length) else s

/-- Strip every copy of a leading token (a no-op for an empty token, which the
source never uses). -/
def stripAll (tok s : Str) : Str :=
  if tok.isEmpty then s else stripGo tok s.length s

/-- Worker for Python `s.replace(pat, rep)`: leftmost, non-overlapping. -/
def replaceGo (pat rep : Str) : Nat → Str → Str
  | 0, s => s
  | Nat.succ n, s =>
    match s with
    | [] => []
    | c :: cs =>
      if pat.isPrefixOf (c :: cs) then
        rep ++ replaceGo pat rep n ((c :: cs).drop pat.length)
      else
        c :: replaceGo pat rep n cs

/-- Python `s.replace(pat, rep)` for a non-empty pattern (the patterns used by
the source are all non-empty literals). -/
def pyReplace (s pat rep : Str) : Str :=
  if pat.isEmpty then s else replaceGo pat rep s.length s

/-- The string literals appearing in chat.py. -/
def sentinel1 : Str := "<<|user-message-1|>>".toList

def sentinel2 : Str := "<<|user-message-2|>>".toList

def bosToken1 : Str := "<s>".toList

def bosToken2 : Str := "<|startoftext|>".toList

def beginVisibleChat : Str := "<|BEGIN-VISIBLE-CHAT|>".toList

def userPlaceholder : Str := "\x7b\x7buser\x7d\x7d".toList

def charPlaceholder : Str := "\x7b\x7bchar\x7d\x7d".toList

def userTagPlaceholder : Str := "<USER>".toList

def botTagPlaceholder : Str := "<BOT>".toList

def characterToken : Str := "<|character|>".toList

def promptToken : Str := "<|prompt|>".toList

/-- chat.py `replace_character_names`. -/
def replace_character_names (text name1 name2 : Str) : Str :=
  pyReplace (pyReplace (pyReplace (pyReplace text userPlaceholder name1)
    charPlaceholder name2) userTagPlaceholder name1) botTagPlaceholder name2

/-- chat.py `get_generation_prompt`: probe a renderer with two sentinel
messages and recover the literal prefix and suffix around one turn.  A
sentinel missing from the rendered output makes the Python list indexing
`split(...)[1]` raise IndexError, modelled as `Except.error ()`. -/
def get_generation_prompt (renderer : List Message → Str)
    (impersonate strip_trailing_spaces : Bool) : Except Unit (Str × Str) :=
  let role := if impersonate then Role.user else Role.assistant
  let prompt := renderer [Message.mk role sentinel1, Message.mk role sentinel2]
  match (pySplit sentinel1 prompt).get? 1 with
  | none => Except.error ()
  | some afterFirst =>
    let suffix_plus_prefix := (pySplit sentinel2 afterFirst).headD []
    match (pySplit sentinel2 prompt).get? 1 with
    | none => Except.error ()
    | some suffix =>
      let pfx := suffix_plus_prefix.drop suffix.length
      Except.ok (if strip_trailing_spaces then rstripSpaces pfx else pfx, suffix)

/-- chat.py `remove_extra_bos`: strip all leading copies of each known
beginning-of-text marker, in the source's order. -/
def remove_extra_bos (p : Str) : Str :=
  stripAll bosToken2 (stripAll bosToken1 p)

/-- One turn of the history loop of `generate_chat_prompt` (lines 103-111):
strip both texts, insert the assistant message and then the user message at
the fixed position `insert_pos`. -/
def seqInsertStep (insert_pos : Nat) (msgs : List Message) (turn : Str × Str) :
    List Message :=
  let user_msg := pyStrip turn.1
  let assistant_msg := pyStrip turn.2
  let msgs1 :=
    if assistant_msg ≠ [] then
      pyInsert insert_pos (Message.mk Role.assistant assistant_msg) msgs
    else msgs
  if user_msg ≠ [] ∧ user_msg ≠ beginVisibleChat then
    pyInsert insert_pos (Message.mk Role.user user_msg) msgs1
  else msgs1

/-- The message-list construction of `generate_chat_prompt` (lines 90-115). -/
def generate_chat_prompt_messages (user_input : Str) (st : State)
    (history : List (Str × Str)) (impersonate cont : Bool) : List Message :=
  let messages : List Message :=
    if st.mode = Mode.instruct then
      if pyStrip st.custom_system_message ≠ [] then
        [Message.mk Role.system st.custom_system_message]
      else []
    else
      if pyStrip st.context ≠ [] then
        [Message.mk Role.system (replace_character_names st.context st.name1 st.name2)]
      else []
  let insert_pos := messages.length
  let messages := history.reverse.foldl (seqInsertStep insert_pos) messages
  let ui := pyStrip user_input
  if ui ≠ [] ∧ impersonate = false ∧ cont = false then
    messages ++ [Message.mk Role.user ui]
  else messages

/-- The inner `prefix` computation of the chat-instruct branch of
`make_prompt` (lines 140-146).  `bp` is the external bot_prefix extension
hook. -/
def ciPrefix (renderer : List Message → Str) (bp : Str → Str)
    (impersonate cont : Bool) (messages : List Message) : Except Unit Str :=
  if cont then
    match get_generation_prompt renderer impersonate false, messages.getLast? with
    | Except.ok pr, some m => Except.ok (pr.1 ++ m.content)
    | Except.ok _, none => Except.error ()
    | Except.error e, _ => Except.error e
  else
    match get_generation_prompt renderer impersonate true with
    | Except.ok pr => Except.ok (if impersonate = true then pr.1 else bp pr.1)
    | Except.error e => Except.error e

/-- chat.py `make_prompt` (lines 124-167), with the two Jinja renderers and
the bot_prefix extension hook passed in as functions.  The source's bare
`instruction_template.render(messages=...)` call is the same function as
`instruct_renderer`, since an unbound `add_generation_prompt` is falsy in a
Jinja template. -/
def make_prompt (chatR instructR : List Message → Str) (bp : Str → Str)
    (st : State) (impersonate cont : Bool) (messages : List Message) :
    Except Unit Str :=
  let renderer := if st.mode = Mode.instruct then instructR else chatR
  let prompt0 :=
    if st.mode = Mode.chat_instruct ∧ cont = true then renderer messages.dropLast
    else renderer messages
  if st.mode = Mode.chat_instruct then
    let outer0 :=
      if pyStrip st.custom_system_message ≠ [] then
        [Message.mk Role.system st.custom_system_message]
      else []
    let prompt1 := remove_extra_bos prompt0
    let command :=
      pyReplace (pyReplace st.chat_instruct_command characterToken
        (if impersonate = true then st.name1 else st.name2)) promptToken prompt1
    match ciPrefix renderer bp impersonate cont messages,
        get_generation_prompt instructR false true with
    | Except.ok pfx, Except.ok sufpr =>
      let outer := outer0 ++ [Message.mk Role.user command, Message.mk Role.assistant pfx]
      let prompt2 := instructR outer
      Except.ok (remove_extra_bos (pyDropTail prompt2 sufpr.2.length))
    | Except.error e, _ => Except.error e
    | _, Except.error e => Except.error e
  else
    if cont = true then
      match get_generation_prompt renderer impersonate true with
      | Except.ok pr => Except.ok (remove_extra_bos (pyDropTail prompt0 pr.2.length))
      | Except.error e => Except.error e
    else
      match get_generation_prompt renderer impersonate true with
      | Except.ok pr =>
        let pfx :=
          if st.mode = Mode.chat ∧ impersonate = false then bp pr.1 else pr.1
        Except.ok (remove_extra_bos (prompt0 ++ pfx))
      | Except.error e => Except.error e

/-- One removal step of the truncation loop (lines 175-178): keep the leading
system message as long as another message exists. -/
def popStep : List Message → List Message
  | m0 :: m1 :: tl => if m0.role = Role.system then m0 :: tl else m1 :: tl
  | msgs => msgs.tail

/-- The truncation loop of `generate_chat_prompt` (lines 173-180) over an
abstract composing function and encoded-length function; the fuel bounds the
iterations. -/
def fitGo (compose : List Message → Str) (encLen : Str → Nat) (maxLength : Nat) :
    Nat → List Message → List Message
  | 0, msgs => msgs
  | Nat.succ n, msgs =>
    if msgs ≠ [] ∧ maxLength < encLen (compose msgs) then
      fitGo compose encLen maxLength n (popStep msgs)
    else msgs

/-- The truncation loop run to completion: each iteration removes one message,
so `msgs.length` fuel always suffices. -/
def fit (compose : List Message → Str) (encLen : Str → Nat) (maxLength : Nat)
    (msgs : List Message) : List Message :=
  fitGo compose encLen maxLength msgs.length msgs

/-- The four boundary cross-combinations one renderer contributes in
`get_stopping_strings` (lines 202-211). -/
def comboStrings (r : List Message → Str) : Except Unit (List Str) :=
  match get_generation_prompt r false true, get_generation_prompt r true true with
  | Except.ok pb, Except.ok pu =>
    Except.ok [pu.2 ++ pb.1, pu.2 ++ pu.1, pb.2 ++ pb.1, pb.2 ++ pu.1]
  | Except.error e, _ => Except.error e
  | _, Except.error e => Except.error e

/-- The `for renderer in renderers` accumulation of `get_stopping_strings`. -/
def probeCombos : List (List Message → Str) → Except Unit (List Str)
  | [] => Except.ok []
  | r :: rest =>
    match comboStrings r, probeCombos rest with
    | Except.ok c, Except.ok cs => Except.ok (c ++ cs)
    | Except.error e, _ => Except.error e
    | _, Except.error e => Except.error e

/-- chat.py `get_stopping_strings` (lines 188-216); `extra` is the optional
caller-supplied `state['stopping_strings']` list (empty when absent), and
Python's `list(set(...))` is modelled by `List.dedup`. -/
def get_stopping_strings (chatR instructR : List Message → Str) (st : State)
    (extra : List Str) : Except Unit (List Str) :=
  let renderers : List (List Message → Str) :=
    (if st.mode = Mode.instruct ∨ st.mode = Mode.chat_instruct then [instructR] else [])
      ++ (if st.mode = Mode.chat ∨ st.mode = Mode.chat_instruct then [chatR] else [])
  (probeCombos renderers).map (fun l => (l ++ extra).dedup)

/-- A renderer that emits a fixed literal before and after each message's
content, with no header: the template shape `get_generation_prompt` is
designed for. -/
def affineRender (pre suf : Str) (msgs : List Message) : Str :=
  (msgs.map (fun m => pre ++ m.content ++ suf)).flatten

/-- The messages one history turn contributes, in chronological order, as the
spec describes them: a user message iff its stripped text is non-blank and
not the begin-visible-chat marker, then an assistant message iff its stripped
text is non-blank. -/
def turnMsgs (t : Str × Str) : List Message :=
  (if pyStrip t.1 ≠ [] ∧ pyStrip t.1 ≠ beginVisibleChat then
    [Message.mk Role.user (pyStrip t.1)]
  else []) ++
  (if pyStrip t.2 ≠ [] then [Message.mk Role.assistant (pyStrip t.2)] else [])

/-- The message list as the spec describes it: optional system message, the
history turns oldest first, then the trailing user message iff the stripped
input is non-blank and neither impersonation nor continuation is set. -/
def sequencerSpec (user_input : Str) (st : State) (history : List (Str × Str))
    (impersonate cont : Bool) : List Message :=
  (if st.mode = Mode.instruct then
    if pyStrip st.custom_system_message ≠ [] then
      [Message.mk Role.system st.custom_system_message]
    else []
  else
    if pyStrip st.context ≠ [] then
      [Message.mk Role.system (replace_character_names st.context st.name1 st.name2)]
    else []) ++
  (history.map turnMsgs).flatten ++
  (if pyStrip user_input ≠ [] ∧ impersonate = false ∧ cont = false then
    [Message.mk Role.user (pyStrip user_input)]
  else [])

/-! ### Basic facts about the embedded string primitives -/

theorem isPrefixOf_nil_false {tok : Str} (h : tok ≠ []) :
    tok.isPrefixOf ([] : Str) = false := by
  cases tok with
  | nil => exact absurd rfl h
  | cons c cs => rfl

theorem stripGo_of_not_pfx {tok s : Str} (n : Nat)
    (h : tok.isPrefixOf s = false) : stripGo tok n s = s := by
  cases n with
  | zero => rfl
  | succ m => simp [stripGo, h]

theorem stripAll_of_not_pfx {tok s : Str} (h : tok.isPrefixOf s = false) :
    stripAll tok s = s := by
  unfold stripAll
  split
  · rfl
  · exact stripGo_of_not_pfx _ h

theorem stripGo_not_pfx {tok : Str} (htok : tok ≠ []) :
    ∀ (n : Nat) (s : Str), s.length ≤ n →
      tok.isPrefixOf (stripGo tok n s) = false := by
  intro n
  induction n with
  | zero =>
    intro s hs
    have : s = [] := List.length_eq_zero.mp (Nat.le_zero.mp hs)
    subst this
    simpa [stripGo] using isPrefixOf_nil_false htok
  | succ m ih =>
    intro s hs
    have htl : 0 < tok.length := List.length_pos.mpr htok
    cases hp : tok.isPrefixOf s with
    | false => simp [stripGo, hp]
    | true =>
      simp only [stripGo, hp, if_true]
      exact ih _ (by simp only [List.length_drop]; omega)

theorem stripAll_not_pfx {tok : Str} (htok : tok ≠ []) (s : Str) :
    tok.isPrefixOf (stripAll tok s) = false := by
  unfold stripAll
  split
  · exact absurd (List.isEmpty_iff.mp (by assumption)) htok
  · exact stripGo_not_pfx htok _ _ (Nat.le_refl _)

theorem isPrefixOf_self_append (l b : Str) : l.isPrefixOf (l ++ b) = true :=
  List.isPrefixOf_iff_prefix.mpr (List.prefix_append l b)

/-- `splitGo` does not depend on the fuel once the fuel covers the length. -/
theorem splitGo_fuel {sep : Str} (hsep : sep ≠ []) :
    ∀ (f1 : Nat) (s : Str) (f2 : Nat), s.length ≤ f1 → s.length ≤ f2 →
      splitGo sep f1 s = splitGo sep f2 s := by
  intro f1
  induction f1 with
  | zero =>
    intro s f2 h1 _
    have hs : s = [] := List.length_eq_zero.mp (Nat.le_zero.mp h1)
    subst hs
    cases f2 with
    | zero => rfl
    | succ m => simp [splitGo]
  | succ n ih =>
    intro s f2 h1 h2
    cases s with
    | nil =>
      cases f2 with
      | zero => simp [splitGo]
      | succ m => simp [splitGo]
    | cons c cs =>
      cases f2 with
      | zero => exact absurd h2 (by simp)
      | succ m =>
        have hsl : 0 < sep.length := List.length_pos.mpr hsep
        simp only [List.length_cons] at h1 h2
        simp only [splitGo]
        cases hp : sep.isPrefixOf (c :: cs) with
        | true =>
          simp only [hp, if_true]
          congr 1
          exact ih _ _ (by simp only [List.length_drop, List.length_cons]; omega)
            (by simp only [List.length_drop, List.length_cons]; omega)
        | false =>
          simp only [hp, Bool.false_eq_true, if_false]
          rw [ih cs m (by omega) (by omega)]

/-- A separator with no occurrence anywhere in `s` splits `s` into `[s]`. -/
theorem splitGo_no_occ {sep : Str} (_hsep : sep ≠ []) :
    ∀ (s : Str) (fuel : Nat), s.length ≤ fuel →
      (∀ i, i < s.length → sep.isPrefixOf (s.drop i) = false) →
      splitGo sep fuel s = [s] := by
  intro s
  induction s with
  | nil =>
    intro fuel _ _
    cases fuel <;> simp [splitGo]
  | cons c cs ih =>
    intro fuel hf hocc
    cases fuel with
    | zero => exact absurd hf (by simp)
    | succ m =>
      have h0 : sep.isPrefixOf (c :: cs) = false := by
        simpa using hocc 0 (by simp)
      have hrec : splitGo sep m cs = [cs] := by
        refine ih m (by simp at hf; omega) (fun i hi => ?_)
        simpa [List.drop_succ_cons] using hocc (i + 1) (by simp; omega)
      simp [splitGo, h0, hrec]

/-- Splitting at the first occurrence: if `sep` has no occurrence of `sep`
starting inside `a`, then splitting `a ++ sep ++ b` yields `a` and then the
split of `b`. -/
theorem splitGo_append {sep : Str} (hsep : sep ≠ []) :
    ∀ (a b : Str) (fuel : Nat), (a ++ sep ++ b).length ≤ fuel →
      (∀ i, i < a.length → sep.isPrefixOf ((a ++ sep ++ b).drop i) = false) →
      splitGo sep fuel (a ++ sep ++ b) = a :: splitGo sep b.length b := by
  intro a
  induction a with
  | nil =>
    intro b fuel hf _
    obtain ⟨sc, scs, rfl⟩ : ∃ sc scs, sep = sc :: scs := by
      cases sep with
      | nil => exact absurd rfl hsep
      | cons x xs => exact ⟨x, xs, rfl⟩
    cases fuel with
    | zero => exact absurd hf (by simp)
    | succ m =>
      have hp : (sc :: scs).isPrefixOf (sc :: (scs ++ b)) = true :=
        isPrefixOf_self_append (sc :: scs) b
      have hdrop : (sc :: (scs ++ b)).drop (sc :: scs).length = b :=
        List.drop_left scs b
      have hfuel : b.length ≤ m := by
        simp at hf
        omega
      simp only [List.nil_append, List.cons_append, splitGo, hp, if_true, hdrop]
      rw [splitGo_fuel hsep m b b.length hfuel (Nat.le_refl _)]
  | cons c a' ih =>
    intro b fuel hf hocc
    cases fuel with
    | zero => exact absurd hf (by simp)
    | succ m =>
      have hb := hocc 0 (by simp)
      simp only [List.drop_zero, List.cons_append, List.append_assoc] at hb
      have h0 : ¬ (sep.isPrefixOf (c :: (a' ++ (sep ++ b))) = true) := by
        simp [hb]
      have hrec : splitGo sep m (a' ++ sep ++ b) = a' :: splitGo sep b.length b := by
        refine ih b m (by simp at hf ⊢; omega) (fun i hi => ?_)
        simpa [List.cons_append, List.drop_succ_cons] using
          hocc (i + 1) (by simp; omega)
      simp only [List.append_assoc] at hrec
      simp only [List.cons_append, List.append_assoc, splitGo]
      rw [if_neg h0, hrec]

theorem pySplit_no_occ {sep : Str} (hsep : sep ≠ []) {s : Str}
    (hocc : ∀ i, i < s.length → sep.isPrefixOf (s.drop i) = false) :
    pySplit sep s = [s] := by
  have he : sep.isEmpty = false := by
    cases sep with
    | nil => exact absurd rfl hsep
    | cons x xs => rfl
  unfold pySplit
  rw [he]
  exact splitGo_no_occ hsep s s.length (Nat.le_refl _) hocc

theorem pySplit_append {sep : Str} (hsep : sep ≠ []) {a b : Str}
    (hocc : ∀ i, i < a.length → sep.isPrefixOf ((a ++ sep ++ b).drop i) = false) :
    pySplit sep (a ++ sep ++ b) = a :: pySplit sep b := by
  have he : sep.isEmpty = false := by
    cases sep with
    | nil => exact absurd rfl hsep
    | cons x xs => rfl
  unfold pySplit
  rw [he]
  simp only [Bool.false_eq_true, if_false]
  exact splitGo_append hsep a b _ (Nat.le_refl _) hocc

/-! ### Claim C7: probe failure surfacing -/

/-- Claim C7: if a sentinel payload does not occur verbatim in the rendered
probe output, `get_generation_prompt` fails with an error (the Python
IndexError from `split(...)[1]`) instead of returning a pair. -/
theorem probe_error_on_missing_sentinel (renderer : List Message → Str)
    (impersonate strip : Bool) (P : Str)
    (hP : renderer [Message.mk (if impersonate then Role.user else Role.assistant) sentinel1,
        Message.mk (if impersonate then Role.user else Role.assistant) sentinel2] = P)
    (h : (∀ i, i < P.length → sentinel1.isPrefixOf (P.drop i) = false) ∨
        (∀ i, i < P.length → sentinel2.isPrefixOf (P.drop i) = false)) :
    get_generation_prompt renderer impersonate strip = Except.error () := by
  have hs1 : sentinel1 ≠ [] := by decide
  have hs2 : sentinel2 ≠ [] := by decide
  cases h with
  | inl h1 =>
    simp [get_generation_prompt, hP, pySplit_no_occ hs1 h1]
  | inr h2 =>
    simp only [get_generation_prompt, hP]
    cases e : (pySplit sentinel1 P).get? 1 with
    | none => simp
    | some afterFirst => simp [pySplit_no_occ hs2 h2]

/-- Witness for `probe_error_on_missing_sentinel`: a renderer that discards
message contents entirely. -/
theorem probe_error_on_missing_sentinel_witness :
    get_generation_prompt (fun _ => ("hello".toList)) false true =
      Except.error () :=
  probe_error_on_missing_sentinel _ false true ("hello".toList) rfl
    (Or.inl (by decide))

/-! ### Claim C1: round-trip probing -/

/-- Claim C1, counterexample: probing is not a round trip for every renderer.
For the affine renderer with literal turn prefix `"A: "` and suffix `"E"`,
`get_generation_prompt` right-trims the trailing space of the recovered
prefix (its default `strip_trailing_spaces=True`), so the returned pair fails
`renderer([X]) = prefix + X + suffix` at `X = "x"`. -/
theorem probe_roundtrip_cex :
    get_generation_prompt (affineRender ("A: ".toList) ("E".toList)) false true =
        Except.ok ("A:".toList, "E".toList) ∧
      affineRender ("A: ".toList) ("E".toList)
          [Message.mk Role.assistant ("x".toList)] ≠
        "A:".toList ++ "x".toList ++ "E".toList := by
  constructor
  · rfl
  · decide

/-- Claim C1, amended: for a renderer that emits each message as a fixed
literal prefix, the content, and a fixed literal suffix with no extra header
(`affineRender`), and whose literals contain no occurrence of the sentinel
tokens (hypotheses `h1`-`h5` say the sentinels occur in the probe render only
at their own positions), `get_generation_prompt` with trailing-space
stripping disabled returns exactly that prefix and suffix, and the round trip
`renderer([{role, X}]) = prefix ++ X ++ suffix` holds for every `X`. -/
theorem probe_roundtrip_affine (pre suf : Str) (impersonate : Bool)
    (h1 : ∀ i, i < pre.length → sentinel1.isPrefixOf
        ((pre ++ sentinel1 ++ (suf ++ (pre ++ (sentinel2 ++ suf)))).drop i) = false)
    (h2 : ∀ i, i < (suf ++ (pre ++ (sentinel2 ++ suf))).length →
        sentinel1.isPrefixOf ((suf ++ (pre ++ (sentinel2 ++ suf))).drop i) = false)
    (h3 : ∀ i, i < (suf ++ pre).length →
        sentinel2.isPrefixOf (((suf ++ pre) ++ sentinel2 ++ suf).drop i) = false)
    (h4 : ∀ i, i < suf.length → sentinel2.isPrefixOf (suf.drop i) = false)
    (h5 : ∀ i, i < (pre ++ (sentinel1 ++ (suf ++ pre))).length →
        sentinel2.isPrefixOf
          (((pre ++ (sentinel1 ++ (suf ++ pre))) ++ sentinel2 ++ suf).drop i) = false) :
    get_generation_prompt (affineRender pre suf) impersonate false =
        Except.ok (pre, suf) ∧
      ∀ X : Str,
        affineRender pre suf
            [Message.mk (if impersonate then Role.user else Role.assistant) X] =
          pre ++ X ++ suf := by
  have hs1 : sentinel1 ≠ [] := by decide
  have hs2 : sentinel2 ≠ [] := by decide
  constructor
  · have hrender : affineRender pre suf
        [Message.mk (if impersonate then Role.user else Role.assistant) sentinel1,
          Message.mk (if impersonate then Role.user else Role.assistant) sentinel2] =
        pre ++ sentinel1 ++ (suf ++ (pre ++ (sentinel2 ++ suf))) := by
      simp [affineRender, List.append_assoc]
    have e1 : pySplit sentinel1
        (pre ++ sentinel1 ++ (suf ++ (pre ++ (sentinel2 ++ suf)))) =
        pre :: pySplit sentinel1 (suf ++ (pre ++ (sentinel2 ++ suf))) :=
      pySplit_append hs1 h1
    have e2 : pySplit sentinel1 (suf ++ (pre ++ (sentinel2 ++ suf))) =
        [suf ++ (pre ++ (sentinel2 ++ suf))] := pySplit_no_occ hs1 h2
    have e4 : pySplit sentinel2 suf = [suf] := pySplit_no_occ hs2 h4
    have ha : suf ++ (pre ++ (sentinel2 ++ suf)) =
        (suf ++ pre) ++ sentinel2 ++ suf := by
      simp [List.append_assoc]
    have hb : pre ++ sentinel1 ++ (suf ++ (pre ++ (sentinel2 ++ suf))) =
        (pre ++ (sentinel1 ++ (suf ++ pre))) ++ sentinel2 ++ suf := by
      simp [List.append_assoc]
    have e3 : pySplit sentinel2 (suf ++ (pre ++ (sentinel2 ++ suf))) =
        (suf ++ pre) :: [suf] := by
      rw [ha, pySplit_append hs2 h3, e4]
    have e5 : pySplit sentinel2
        (pre ++ sentinel1 ++ (suf ++ (pre ++ (sentinel2 ++ suf)))) =
        (pre ++ (sentinel1 ++ (suf ++ pre))) :: [suf] := by
      rw [hb, pySplit_append hs2 h5, e4]
    have e1' : pySplit sentinel1
        (pre ++ (sentinel1 ++ (suf ++ (pre ++ (sentinel2 ++ suf))))) =
        pre :: pySplit sentinel1 (suf ++ (pre ++ (sentinel2 ++ suf))) := by
      rw [← List.append_assoc]
      exact e1
    have e5' : pySplit sentinel2
        (pre ++ (sentinel1 ++ (suf ++ (pre ++ (sentinel2 ++ suf))))) =
        [pre ++ (sentinel1 ++ (suf ++ pre)), suf] := by
      rw [← List.append_assoc]
      exact e5
    simp [get_generation_prompt, hrender, e1', e2, e3, e5', List.drop_left]
  · intro X
    simp [affineRender, List.append_assoc]

/-- Witness for `probe_roundtrip_affine` with prefix `"[A]"` and suffix
`"[/A]"`. -/
theorem probe_roundtrip_affine_witness :
    get_generation_prompt (affineRender ("[A]".toList) ("[/A]".toList)) false
        false = Except.ok ("[A]".toList, "[/A]".toList) ∧
      affineRender ("[A]".toList) ("[/A]".toList)
          [Message.mk Role.assistant ("x!".toList)] =
        "[A]".toList ++ "x!".toList ++ "[/A]".toList := by
  have h := probe_roundtrip_affine ("[A]".toList) ("[/A]".toList) false
    (by decide) (by decide) (by decide) (by decide) (by decide)
  exact ⟨h.1, h.2 ("x!".toList)⟩

/-! ### Claim C5: leading-marker stripping -/

/-- Claim C5, counterexample: `remove_extra_bos` is not idempotent.  On
`"<|startoftext|><s>"` the first pass (which strips `'<s>'` copies before
`'<|startoftext|>'` copies) returns `"<s>"`, which still begins with a known
marker, and a second pass strips it. -/
theorem remove_extra_bos_not_idem_cex :
    remove_extra_bos (remove_extra_bos ("<|startoftext|><s>".toList)) ≠
        remove_extra_bos ("<|startoftext|><s>".toList) ∧
      remove_extra_bos ("<|startoftext|><s>".toList) = bosToken1 := by
  decide

/-- Claim C5, amended: one application of `remove_extra_bos` leaves no leading
`'<|startoftext|>'`, but may leave a leading `'<s>'` (uncovered by stripping a
leading `'<|startoftext|>'` run); a second application is the identity exactly
on results that do not begin with `'<s>'`. -/
theorem remove_extra_bos_amended (p : Str) :
    bosToken2.isPrefixOf (remove_extra_bos p) = false ∧
    (bosToken1.isPrefixOf (remove_extra_bos p) = false →
      remove_extra_bos (remove_extra_bos p) = remove_extra_bos p) := by
  constructor
  · exact stripAll_not_pfx (by decide) _
  · intro h
    show stripAll bosToken2 (stripAll bosToken1 (remove_extra_bos p)) = remove_extra_bos p
    rw [stripAll_of_not_pfx h]
    exact stripAll_of_not_pfx (stripAll_not_pfx (by decide) _)

/-- Witness for `remove_extra_bos_amended` at the concrete input `"<s>ok"`. -/
theorem remove_extra_bos_amended_witness :
    bosToken2.isPrefixOf (remove_extra_bos ("<s>ok".toList)) = false ∧
    remove_extra_bos (remove_extra_bos ("<s>ok".toList)) =
      remove_extra_bos ("<s>ok".toList) :=
  ⟨(remove_extra_bos_amended _).1, (remove_extra_bos_amended _).2 (by decide)⟩

/-! ### Claim C2: the message sequencer -/

theorem pyInsert_append {α : Type} (x : α) (l₁ l₂ : List α) :
    pyInsert l₁.length x (l₁ ++ l₂) = l₁ ++ x :: l₂ := by
  induction l₁ with
  | nil => cases l₂ <;> rfl
  | cons a as ih => simp [pyInsert, ih]

/-- Inserting both halves of a turn at the fixed position `base.length` into
`base ++ acc` prepends the turn's messages to `acc`, user before assistant. -/
theorem seqInsertStep_append (base acc : List Message) (t : Str × Str) :
    seqInsertStep base.length (base ++ acc) t = base ++ (turnMsgs t ++ acc) := by
  unfold seqInsertStep turnMsgs
  by_cases ha : pyStrip t.2 ≠ [] <;>
    by_cases hu : pyStrip t.1 ≠ [] ∧ pyStrip t.1 ≠ beginVisibleChat <;>
      simp [ha, hu, pyInsert_append]

theorem foldr_seqInsertStep (base : List Message) (history : List (Str × Str))
    (acc : List Message) :
    List.foldr (fun t msgs => seqInsertStep base.length msgs t) (base ++ acc)
        history =
      base ++ ((history.map turnMsgs).flatten ++ acc) := by
  induction history with
  | nil => simp
  | cons t ts ih => simp [ih, seqInsertStep_append, List.append_assoc]

/-- Claim C2: the message list built by `generate_chat_prompt` is exactly the
spec-shaped list: the optional system message, then per history turn (oldest
first) the non-blank non-marker user text followed by the non-blank assistant
text, then the trailing stripped user input when neither impersonating nor
continuing. -/
theorem sequencer_postcondition (user_input : Str) (st : State)
    (history : List (Str × Str)) (impersonate cont : Bool) :
    generate_chat_prompt_messages user_input st history impersonate cont =
      sequencerSpec user_input st history impersonate cont := by
  simp only [generate_chat_prompt_messages, sequencerSpec]
  rw [List.foldl_reverse]
  generalize (if st.mode = Mode.instruct then
    if pyStrip st.custom_system_message ≠ [] then
      [Message.mk Role.system st.custom_system_message]
    else []
  else
    if pyStrip st.context ≠ [] then
      [Message.mk Role.system (replace_character_names st.context st.name1 st.name2)]
    else []) = base
  have hfold := foldr_seqInsertStep base history []
  simp only [List.append_nil] at hfold
  rw [hfold]
  by_cases hc : pyStrip user_input ≠ [] ∧ impersonate = false ∧ cont = false <;>
    simp [hc, List.append_assoc]

/-! ### Claims C3, C6, C9: the truncation loop -/

theorem fitGo_nil (compose : List Message → Str) (encLen : Str → Nat)
    (maxLength fuel : Nat) : fitGo compose encLen maxLength fuel [] = [] := by
  cases fuel <;> simp [fitGo]

theorem popStep_length_le (msgs : List Message) :
    (popStep msgs).length ≤ msgs.length := by
  match msgs with
  | [] => simp [popStep]
  | [m] => simp [popStep]
  | m0 :: m1 :: tl => by_cases h : m0.role = Role.system <;> simp [popStep, h]

/-- Each truncation step removes exactly one message. -/
theorem popStep_length_succ (msgs : List Message) (h : msgs ≠ []) :
    (popStep msgs).length + 1 = msgs.length := by
  match msgs with
  | [] => exact absurd rfl h
  | [m] => simp [popStep]
  | m0 :: m1 :: tl => by_cases hr : m0.role = Role.system <;> simp [popStep, hr]

theorem fitGo_length_le (compose : List Message → Str) (encLen : Str → Nat)
    (maxLength : Nat) :
    ∀ (fuel : Nat) (msgs : List Message),
      (fitGo compose encLen maxLength fuel msgs).length ≤ msgs.length := by
  intro fuel
  induction fuel with
  | zero => intro msgs; exact Nat.le_refl _
  | succ n ih =>
    intro msgs
    simp only [fitGo]
    split
    · exact Nat.le_trans (ih (popStep msgs)) (popStep_length_le msgs)
    · exact Nat.le_refl _

theorem fitGo_budget_mono (compose : List Message → Str) (encLen : Str → Nat)
    {B1 B2 : Nat} (hB : B1 ≤ B2) :
    ∀ (fuel : Nat) (msgs : List Message),
      (fitGo compose encLen B1 fuel msgs).length ≤
        (fitGo compose encLen B2 fuel msgs).length := by
  intro fuel
  induction fuel with
  | zero => intro msgs; exact Nat.le_refl _
  | succ n ih =>
    intro msgs
    by_cases h2 : msgs ≠ [] ∧ B2 < encLen (compose msgs)
    · have h1 : msgs ≠ [] ∧ B1 < encLen (compose msgs) :=
        ⟨h2.1, Nat.lt_of_le_of_lt hB h2.2⟩
      simp only [fitGo, if_pos h1, if_pos h2]
      exact ih (popStep msgs)
    · have hright : fitGo compose encLen B2 (n + 1) msgs = msgs := by
        simp only [fitGo, if_neg h2]
      rw [hright]
      exact fitGo_length_le compose encLen B1 (n + 1) msgs

/-- Claim C6: with the composing and encoded-length functions fixed, a
smaller budget never retains more messages than a larger one. -/
theorem fit_budget_monotone (compose : List Message → Str) (encLen : Str → Nat)
    (B1 B2 : Nat) (hB : B1 < B2) (msgs : List Message) :
    (fit compose encLen B1 msgs).length ≤ (fit compose encLen B2 msgs).length :=
  fitGo_budget_mono compose encLen (Nat.le_of_lt hB) msgs.length msgs

/-- Witness for `fit_budget_monotone` with budgets `0 < 3`. -/
theorem fit_budget_monotone_witness :
    0 < 3 ∧
      (fit (fun ms => (ms.map Message.content).flatten) List.length 0
          [Message.mk Role.user ("ab".toList), Message.mk Role.user ("cd".toList)]).length ≤
        (fit (fun ms => (ms.map Message.content).flatten) List.length 3
          [Message.mk Role.user ("ab".toList), Message.mk Role.user ("cd".toList)]).length :=
  ⟨by decide, fit_budget_monotone _ _ 0 3 (by decide) _⟩

theorem fitGo_system_head (compose : List Message → Str) (encLen : Str → Nat)
    (maxLength : Nat) (sys : Message) (hsys : sys.role = Role.system) :
    ∀ (fuel : Nat) (rest : List Message),
      fitGo compose encLen maxLength fuel (sys :: rest) = [] ∨
        ∃ n, n ≤ rest.length ∧
          fitGo compose encLen maxLength fuel (sys :: rest) = sys :: rest.drop n := by
  intro fuel
  induction fuel with
  | zero => intro rest; exact Or.inr ⟨0, Nat.zero_le _, rfl⟩
  | succ k ih =>
    intro rest
    by_cases hc : (sys :: rest) ≠ [] ∧ maxLength < encLen (compose (sys :: rest))
    · have hstep : fitGo compose encLen maxLength (k + 1) (sys :: rest) =
          fitGo compose encLen maxLength k (popStep (sys :: rest)) := by
        simp only [fitGo, if_pos hc]
      rw [hstep]
      cases rest with
      | nil =>
        rw [show popStep [sys] = [] from rfl, fitGo_nil]
        exact Or.inl rfl
      | cons m1 tl =>
        rw [show popStep (sys :: m1 :: tl) = sys :: tl from by simp [popStep, hsys]]
        rcases ih tl with h | ⟨n, hn, he⟩
        · exact Or.inl h
        · exact Or.inr ⟨n + 1, by simpa using Nat.succ_le_succ hn,
            by simpa [List.drop_succ_cons] using he⟩
    · have hstop : fitGo compose encLen maxLength (k + 1) (sys :: rest) =
          sys :: rest := by
        simp only [fitGo, if_neg hc]
      rw [hstop]
      exact Or.inr ⟨0, Nat.zero_le _, by simp⟩

/-- Claim C3: the truncation loop preserves a leading system message while any
other message remains (the loop ends at `sys :: rest.drop n`, at `[sys]`, or
at `[]` only after everything else is gone), and each step removes the
message at index 1 when the head is a system message and at least two
messages exist, else the message at index 0. -/
theorem fit_system_preservation (compose : List Message → Str)
    (encLen : Str → Nat) (maxLength : Nat) (sys : Message) (rest : List Message)
    (hsys : sys.role = Role.system) :
    (fit compose encLen maxLength (sys :: rest) = [] ∨
      ∃ n, n ≤ rest.length ∧
        fit compose encLen maxLength (sys :: rest) = sys :: rest.drop n) ∧
    (∀ m0 m1 : Message, ∀ tl : List Message, popStep (m0 :: m1 :: tl) =
      if m0.role = Role.system then m0 :: tl else m1 :: tl) ∧
    (∀ m0 : Message, popStep [m0] = []) := by
  refine ⟨fitGo_system_head compose encLen maxLength sys hsys _ rest, ?_, ?_⟩
  · intro m0 m1 tl
    rfl
  · intro m0
    rfl

/-- Witness for `fit_system_preservation` with a concrete system + user list. -/
theorem fit_system_preservation_witness :
    (Message.mk Role.system ("s".toList)).role = Role.system ∧
    ((fit (fun ms => (ms.map Message.content).flatten) List.length 0
        (Message.mk Role.system ("s".toList) :: [Message.mk Role.user ("u".toList)]) = [] ∨
      ∃ n, n ≤ [Message.mk Role.user ("u".toList)].length ∧
        fit (fun ms => (ms.map Message.content).flatten) List.length 0
          (Message.mk Role.system ("s".toList) :: [Message.mk Role.user ("u".toList)]) =
          Message.mk Role.system ("s".toList) ::
            [Message.mk Role.user ("u".toList)].drop n) ∧
    (∀ m0 m1 : Message, ∀ tl : List Message, popStep (m0 :: m1 :: tl) =
      if m0.role = Role.system then m0 :: tl else m1 :: tl) ∧
    (∀ m0 : Message, popStep [m0] = [])) :=
  ⟨rfl, fit_system_preservation _ _ 0 _ _ rfl⟩

theorem fitGo_fuel (compose : List Message → Str) (encLen : Str → Nat)
    (maxLength : Nat) :
    ∀ (f1 : Nat) (msgs : List Message) (f2 : Nat),
      msgs.length ≤ f1 → msgs.length ≤ f2 →
      fitGo compose encLen maxLength f1 msgs =
        fitGo compose encLen maxLength f2 msgs := by
  intro f1
  induction f1 with
  | zero =>
    intro msgs f2 h1 _
    have hm : msgs = [] := List.length_eq_zero.mp (Nat.le_zero.mp h1)
    subst hm
    rw [fitGo_nil, fitGo_nil]
  | succ n ih =>
    intro msgs f2 h1 h2
    by_cases hc : msgs ≠ [] ∧ maxLength < encLen (compose msgs)
    · have hlen : 0 < msgs.length := List.length_pos.mpr hc.1
      cases f2 with
      | zero => omega
      | succ m =>
        simp only [fitGo, if_pos hc]
        have hp := popStep_length_succ msgs hc.1
        exact ih (popStep msgs) m (by omega) (by omega)
    · cases f2 with
      | zero =>
        have hm : msgs = [] := List.length_eq_zero.mp (Nat.le_zero.mp h2)
        subst hm
        rw [fitGo_nil]
        rfl
      | succ m => simp only [fitGo, if_neg hc]

theorem fitGo_postcondition (compose : List Message → Str) (encLen : Str → Nat)
    (maxLength : Nat) :
    ∀ (fuel : Nat) (msgs : List Message), msgs.length ≤ fuel →
      encLen (compose (fitGo compose encLen maxLength fuel msgs)) ≤ maxLength ∨
        fitGo compose encLen maxLength fuel msgs = [] := by
  intro fuel
  induction fuel with
  | zero =>
    intro msgs h
    have hm : msgs = [] := List.length_eq_zero.mp (Nat.le_zero.mp h)
    subst hm
    exact Or.inr rfl
  | succ n ih =>
    intro msgs h
    by_cases hc : msgs ≠ [] ∧ maxLength < encLen (compose msgs)
    · simp only [fitGo, if_pos hc]
      refine ih (popStep msgs) ?_
      have := popStep_length_succ msgs hc.1
      omega
    · simp only [fitGo, if_neg hc]
      push_neg at hc
      by_cases hm : msgs = []
      · exact Or.inr hm
      · exact Or.inl (hc hm)

/-- Claim C9: the truncation loop terminates.  Each iteration removes exactly
one message, so fuel equal to the initial message count suffices (any larger
fuel computes the same result), and the loop's outcome either fits the budget
or is the empty message list, which is returned (with its minimal composed
prompt) rather than raising an error. -/
theorem fit_terminates (compose : List Message → Str) (encLen : Str → Nat)
    (maxLength : Nat) (msgs : List Message) :
    (∀ ms : List Message, ms ≠ [] → (popStep ms).length + 1 = ms.length) ∧
    (∀ fuel, msgs.length ≤ fuel →
      fitGo compose encLen maxLength fuel msgs = fit compose encLen maxLength msgs) ∧
    (encLen (compose (fit compose encLen maxLength msgs)) ≤ maxLength ∨
      fit compose encLen maxLength msgs = []) :=
  ⟨popStep_length_succ,
   fun fuel hf => fitGo_fuel compose encLen maxLength fuel msgs msgs.length hf
     (Nat.le_refl _),
   fitGo_postcondition compose encLen maxLength msgs.length msgs (Nat.le_refl _)⟩

/-- Witness for `fit_terminates` on a concrete one-message list. -/
theorem fit_terminates_witness :
    (popStep [Message.mk Role.user ("u".toList)]).length + 1 =
      [Message.mk Role.user ("u".toList)].length ∧
    fitGo (fun ms => (ms.map Message.content).flatten) List.length 0 5
        [Message.mk Role.user ("u".toList)] =
      fit (fun ms => (ms.map Message.content).flatten) List.length 0
        [Message.mk Role.user ("u".toList)] ∧
    (((fit (fun ms => (ms.map Message.content).flatten) List.length 0
        [Message.mk Role.user ("u".toList)]).map Message.content).flatten.length ≤ 0 ∨
      fit (fun ms => (ms.map Message.content).flatten) List.length 0
        [Message.mk Role.user ("u".toList)] = []) :=
  ⟨(fit_terminates (fun ms => (ms.map Message.content).flatten) List.length 0
      [Message.mk Role.user ("u".toList)]).1 _ (by decide),
   (fit_terminates (fun ms => (ms.map Message.content).flatten) List.length 0
      [Message.mk Role.user ("u".toList)]).2.1 5 (by decide),
   (fit_terminates (fun ms => (ms.map Message.content).flatten) List.length 0
      [Message.mk Role.user ("u".toList)]).2.2⟩

/-! ### Claims C4 and C10: continuation composition -/

theorem pyDropTail_append {suffix : Str} (core : Str) (hsuf : suffix ≠ []) :
    pyDropTail (core ++ suffix) suffix.length = core := by
  unfold pyDropTail
  rw [if_neg (fun h => hsuf (List.length_eq_zero.mp h))]
  rw [List.length_append, Nat.add_sub_cancel, List.take_left]

theorem remove_extra_bos_of_not_pfx {p : Str}
    (h1 : bosToken1.isPrefixOf p = false) (h2 : bosToken2.isPrefixOf p = false) :
    remove_extra_bos p = p := by
  unfold remove_extra_bos
  rw [stripAll_of_not_pfx h1, stripAll_of_not_pfx h2]

theorem remove_extra_bos_nil : remove_extra_bos [] = [] := rfl

/-- Claim C4, counterexample: continuation composition plus the omitted
suffix does not reproduce non-continuation composition, because the latter
additionally appends the generation prefix for the next turn.  Concretely,
for the chat renderer with turn prefix `"A:"` and suffix `"E"` on the
message list `[assistant "hi"]`, continuation yields `"A:hi"` (so plus the
probed suffix `"E"`: `"A:hiE"`), while non-continuation yields
`"A:hiEA:"`. -/
theorem make_prompt_continuation_cex :
    get_generation_prompt (affineRender ("A:".toList) ("E".toList)) false true =
        Except.ok ("A:".toList, "E".toList) ∧
      make_prompt (affineRender ("A:".toList) ("E".toList))
          (affineRender ("I:".toList) ("J".toList)) id
          (State.mk Mode.chat ("U".toList) ("B".toList) [] [] [])
          false true [Message.mk Role.assistant ("hi".toList)] =
        Except.ok ("A:hi".toList) ∧
      make_prompt (affineRender ("A:".toList) ("E".toList))
          (affineRender ("I:".toList) ("J".toList)) id
          (State.mk Mode.chat ("U".toList) ("B".toList) [] [] [])
          false false [Message.mk Role.assistant ("hi".toList)] =
        Except.ok ("A:hiEA:".toList) ∧
      "A:hi".toList ++ "E".toList ≠ "A:hiEA:".toList :=
  ⟨rfl, rfl, rfl, by decide⟩

/-- Claim C4, amended: in chat or instruct mode, composing in continuation
mode and then concatenating the omitted probed suffix reproduces the
renderer's output on the identical message list (that is, the
non-continuation composition without its appended generation prefix),
provided the probed suffix is non-empty and actually closes the rendered
output, and the rendered core carries no leading beginning-of-text marker. -/
theorem make_prompt_continuation (chatR instructR : List Message → Str)
    (bp : Str → Str) (st : State) (impersonate : Bool) (msgs : List Message)
    (p suffix core : Str)
    (hmode : st.mode = Mode.chat ∨ st.mode = Mode.instruct)
    (hprobe : get_generation_prompt
        (if st.mode = Mode.instruct then instructR else chatR) impersonate true =
      Except.ok (p, suffix))
    (hsuf : suffix ≠ [])
    (hrender : (if st.mode = Mode.instruct then instructR else chatR) msgs =
      core ++ suffix)
    (hb1 : bosToken1.isPrefixOf core = false)
    (hb2 : bosToken2.isPrefixOf core = false) :
    make_prompt chatR instructR bp st impersonate true msgs = Except.ok core ∧
      core ++ suffix =
        (if st.mode = Mode.instruct then instructR else chatR) msgs := by
  have hnotci : ¬ st.mode = Mode.chat_instruct := by
    rcases hmode with h | h <;> simp [h]
  refine ⟨?_, hrender.symm⟩
  simp only [make_prompt, hnotci, false_and, if_false, if_neg hnotci, if_pos rfl,
    hprobe, hrender]
  rw [pyDropTail_append core hsuf, remove_extra_bos_of_not_pfx hb1 hb2]
  simp

/-- Witness for `make_prompt_continuation` with the chat renderer
`"A:" ... "E"` on `[assistant "hi"]`. -/
theorem make_prompt_continuation_witness :
    make_prompt (affineRender ("A:".toList) ("E".toList))
        (affineRender ("I:".toList) ("J".toList)) id
        (State.mk Mode.chat ("U".toList) ("B".toList) [] [] [])
        false true [Message.mk Role.assistant ("hi".toList)] =
      Except.ok ("A:hi".toList) ∧
    "A:hi".toList ++ "E".toList =
      (if (State.mk Mode.chat ("U".toList) ("B".toList) [] [] []).mode =
          Mode.instruct then affineRender ("I:".toList) ("J".toList)
        else affineRender ("A:".toList) ("E".toList))
        [Message.mk Role.assistant ("hi".toList)] :=
  make_prompt_continuation _ _ id _ false _ ("A:".toList) ("E".toList)
    ("A:hi".toList) (Or.inl rfl) rfl (by decide) (by decide) (by decide)
    (by decide)

/-- Claim C10: the `prompt[:-len(suffix)]` slice with a zero-length probed
suffix collapses the whole prompt to the empty string: in chat or instruct
continuation mode when the active renderer's probed suffix is empty, and in
chat-instruct mode when the instruction renderer's probed assistant suffix is
empty (whenever the rest of the chat-instruct composition succeeds), the
composed prompt is empty. -/
theorem make_prompt_empty_suffix (chatR instructR : List Message → Str)
    (bp : Str → Str) (st : State) (impersonate cont : Bool)
    (msgs : List Message) (p q : Str)
    (h : (¬ st.mode = Mode.chat_instruct ∧ cont = true ∧
          get_generation_prompt
            (if st.mode = Mode.instruct then instructR else chatR)
            impersonate true = Except.ok (p, [])) ∨
        (st.mode = Mode.chat_instruct ∧
          (∃ pr, ciPrefix (if st.mode = Mode.instruct then instructR else chatR)
            bp impersonate cont msgs = Except.ok pr) ∧
          get_generation_prompt instructR false true = Except.ok (q, []))) :
    make_prompt chatR instructR bp st impersonate cont msgs = Except.ok [] := by
  rcases h with ⟨hnotci, hcont, hprobe⟩ | ⟨hci, ⟨pr, hpr⟩, hprobe⟩
  · subst hcont
    simp only [make_prompt, hnotci, false_and, if_false, if_neg hnotci,
      if_pos rfl, hprobe]
    simp [pyDropTail, remove_extra_bos_nil]
  · rw [hci] at hpr
    rw [if_neg (by decide : ¬ Mode.chat_instruct = Mode.instruct)] at hpr
    simp [make_prompt, hci, hpr, hprobe, pyDropTail, remove_extra_bos_nil]

/-- Witness for `make_prompt_empty_suffix`: a chat renderer whose template
emits nothing after the assistant turn, probed suffix `""`, makes
continuation composition return the empty prompt. -/
theorem make_prompt_empty_suffix_witness :
    make_prompt (affineRender ("A:".toList) [])
        (affineRender ("I:".toList) ("J".toList)) id
        (State.mk Mode.chat ("U".toList) ("B".toList) [] [] [])
        false true [Message.mk Role.assistant ("hi".toList)] =
      Except.ok [] :=
  make_prompt_empty_suffix _ _ id _ false true _ ("A:".toList) []
    (Or.inl ⟨by decide, rfl, rfl⟩)

/-! ### Claim C8: stopping strings -/

/-- Claim C8: `get_stopping_strings` returns (as a deduplicated list) exactly
the four suffix-prefix cross-combinations of each renderer active in the
mode, together with the caller-supplied extra stopping strings. -/
theorem stopping_strings_spec (chatR instructR : List Message → Str) (st : State)
    (extra : List Str) (ipb ipu cpb cpu : Str × Str)
    (hib : get_generation_prompt instructR false true = Except.ok ipb)
    (hiu : get_generation_prompt instructR true true = Except.ok ipu)
    (hcb : get_generation_prompt chatR false true = Except.ok cpb)
    (hcu : get_generation_prompt chatR true true = Except.ok cpu) :
    ∃ L, get_stopping_strings chatR instructR st extra = Except.ok L ∧
      ∀ s : Str, s ∈ L ↔
        ((st.mode = Mode.instruct ∨ st.mode = Mode.chat_instruct) ∧
            s ∈ [ipu.2 ++ ipb.1, ipu.2 ++ ipu.1, ipb.2 ++ ipb.1, ipb.2 ++ ipu.1]) ∨
        ((st.mode = Mode.chat ∨ st.mode = Mode.chat_instruct) ∧
            s ∈ [cpu.2 ++ cpb.1, cpu.2 ++ cpu.1, cpb.2 ++ cpb.1, cpb.2 ++ cpu.1]) ∨
        s ∈ extra := by
  cases hmode : st.mode with
  | chat =>
    refine ⟨([cpu.2 ++ cpb.1, cpu.2 ++ cpu.1, cpb.2 ++ cpb.1, cpb.2 ++ cpu.1] ++
      extra).dedup, ?_, ?_⟩
    · simp [get_stopping_strings, probeCombos, comboStrings, hmode, hcb, hcu,
        Except.map]
    · intro s
      simp [List.mem_dedup, hmode]
      tauto
  | instruct =>
    refine ⟨([ipu.2 ++ ipb.1, ipu.2 ++ ipu.1, ipb.2 ++ ipb.1, ipb.2 ++ ipu.1] ++
      extra).dedup, ?_, ?_⟩
    · simp [get_stopping_strings, probeCombos, comboStrings, hmode, hib, hiu,
        Except.map]
    · intro s
      simp [List.mem_dedup, hmode]
      tauto
  | chat_instruct =>
    refine ⟨([ipu.2 ++ ipb.1, ipu.2 ++ ipu.1, ipb.2 ++ ipb.1, ipb.2 ++ ipu.1] ++
      ([cpu.2 ++ cpb.1, cpu.2 ++ cpu.1, cpb.2 ++ cpb.1, cpb.2 ++ cpu.1] ++
        extra)).dedup, ?_, ?_⟩
    · simp [get_stopping_strings, probeCombos, comboStrings, hmode, hib, hiu,
        hcb, hcu, Except.map]
    · intro s
      simp [List.mem_dedup, hmode]
      tauto

/-- Witness for `stopping_strings_spec` with two concrete affine renderers in
chat-instruct mode and one extra stopping string. -/
theorem stopping_strings_spec_witness :
    ∃ L, get_stopping_strings (affineRender ("C:".toList) ("D".toList))
        (affineRender ("I:".toList) ("J".toList))
        (State.mk Mode.chat_instruct [] [] [] [] []) [("Z".toList)] =
      Except.ok L ∧
      ∀ s : Str, s ∈ L ↔
        (((State.mk Mode.chat_instruct ([] : Str) [] [] [] []).mode = Mode.instruct ∨
            (State.mk Mode.chat_instruct ([] : Str) [] [] [] []).mode = Mode.chat_instruct) ∧
            s ∈ [("J".toList : Str) ++ "I:".toList, "J".toList ++ "I:".toList,
              "J".toList ++ "I:".toList, "J".toList ++ "I:".toList]) ∨
        (((State.mk Mode.chat_instruct ([] : Str) [] [] [] []).mode = Mode.chat ∨
            (State.mk Mode.chat_instruct ([] : Str) [] [] [] []).mode = Mode.chat_instruct) ∧
            s ∈ [("D".toList : Str) ++ "C:".toList, "D".toList ++ "C:".toList,
              "D".toList ++ "C:".toList, "D".toList ++ "C:".toList]) ∨
        s ∈ [("Z".toList : Str)] :=
  stopping_strings_spec _ _ _ _ ("I:".toList, "J".toList) ("I:".toList, "J".toList)
    ("C:".toList, "D".toList) ("C:".toList, "D".toList) rfl rfl rfl rfl

end Chat
